import Mathlib

/-!
Verification of the max-k-sat repository (src/ea.py, src/pso.py).

The two Python modules implement a genetic algorithm (EA) and a weighted
particle-swarm optimizer with greedy local search (PSO) for MAX-SAT.
This file gives a shallow embedding of the relevant functions:

* Python lists of ints become List Int; Python list indexing (including
  negative indices) is modelled by pyGet, returning Option (none models a
  raised IndexError).
* Fallible code (anything that can raise) returns Option.
* Python floats (random draws, velocities, w, c1, c2) are modelled as
  rationals; the claims about them concern sampling structure, not
  floating-point rounding.
* In-place mutation of lists is modelled by threading the list contents:
  a function that mutates a list in the Python source returns the final
  contents of that same list object here.
-/

namespace MaxKSat

/-- Python list indexing semantics: a nonnegative index selects from the
front, a negative index i selects element length + i, anything out of
range raises (modelled as none). -/
def pyGet (l : List Int) (i : Int) : Option Int :=
  if 0 ≤ i then l.get? i.toNat
  else if (l.length : Int) + i < 0 then none
  else l.get? ((l.length : Int) + i).toNat

/-- Value of one literal under a valuation, per the loop body of
EA.is_clause_satisfied / PSO.is_clause_satisfied (the two are identical
line by line): a negative literal reads 1 - valuation_list[-literal - 1],
otherwise valuation_list[literal - 1].  Note that literal = 0 yields
Python index -1, i.e. the LAST element, rather than an error. -/
def litVal (valuation : List Int) (literal : Int) : Option Int :=
  if literal < 0 then (pyGet valuation (-literal - 1)).map (fun v => 1 - v)
  else pyGet valuation (literal - 1)

/-- EA.is_clause_satisfied / PSO.is_clause_satisfied: scan the literals in
order; return true at the first literal whose value is 1, false if none is;
propagate an indexing error. -/
def isClauseSatisfied (valuation : List Int) : List Int → Option Bool
  | [] => some false
  | l :: rest =>
      (litVal valuation l).bind (fun v =>
        if v = 1 then some true else isClauseSatisfied valuation rest)

/-- EA.fitness (ignoring the goal_function side effect, treated separately):
the number of satisfied clauses under the given valuation. -/
def eaFitness (clauses : List (List Int)) (valuation : List Int) : Option Nat :=
  match clauses with
  | [] => some 0
  | c :: cs =>
      (isClauseSatisfied valuation c).bind (fun b =>
        (eaFitness cs valuation).map (fun k => k + (if b then 1 else 0)))

/-- Weighted clause as built by PSO.w_clauses_from_file: a clause paired
with an integer weight (initialized to 1 there). -/
structure WClause where
  clause : List Int
  w : Int
  deriving Repr, DecidableEq

/-- PSO.fitness: the weighted count sum(w * is_clause_satisfied(...)) over
all clauses (Python bools count as 0/1 in the product). -/
def psoFitness (clauses : List WClause) (valuation : List Int) : Option Int :=
  match clauses with
  | [] => some 0
  | c :: cs =>
      (isClauseSatisfied valuation c.clause).bind (fun b =>
        (psoFitness cs valuation).map (fun s => c.w * (if b then 1 else 0) + s))

/-- PSO.num_satisfied_clauses: the unweighted count of satisfied clauses. -/
def numSatisfiedClauses (clauses : List WClause) (valuation : List Int) : Option Nat :=
  eaFitness (clauses.map WClause.clause) valuation

/-- Chromosome from src/ea.py: a solution together with its recorded
fitness. -/
structure Chromosome where
  solution : List Int
  fitness : Nat
  deriving Repr, DecidableEq

/-- Loop body of EA.crossover for one position i.  In the source, ab = a
and ba = b are plain Python name bindings, so ab ALIASES parent a and ba
ALIASES parent b; every subscript assignment mutates the parents in place.
This embedding threads the current contents of the two list objects:
if the draw p is below crossover_p the two assignments are no-ops on the
aliased lists; otherwise a[i] is overwritten with b[i] first, and b[i] is
then overwritten with the NEW a[i] (which is already b's original bit). -/
def crossoverStep (crossover_p : ℚ) (p : ℚ) (i : Nat) (a b : List Int) :
    Option (List Int × List Int) :=
  if p < crossover_p then
    (a.get? i).bind (fun ai =>
      (b.get? i).bind (fun bi => some (a.set i ai, b.set i bi)))
  else
    (b.get? i).bind (fun bi =>
      ((a.set i bi).get? i).bind (fun ai2 =>
        some (a.set i bi, b.set i ai2)))

/-- Iteration of EA.crossover over the remaining positions, drawing p for
position i from the draw stream. -/
def crossoverGo (crossover_p : ℚ) (draws : Nat → ℚ) :
    List Nat → List Int × List Int → Option (List Int × List Int)
  | [], ab => some ab
  | i :: rest, (a, b) =>
      (crossoverStep crossover_p (draws i) i a b).bind
        (crossoverGo crossover_p draws rest)

/-- EA.crossover: loops i over range(len(a)); returns the final contents
of the two parent list objects (ab, ba), which alias a and b. -/
def crossover (crossover_p : ℚ) (draws : Nat → ℚ) (a b : List Int) :
    Option (List Int × List Int) :=
  crossoverGo crossover_p draws (List.range a.length) (a, b)

/-- EA.mutation: draw t; if t < mutation_rate, flip the bit at the drawn
index i in place; return the (same, possibly mutated) list. -/
def mutation (mutation_rate : ℚ) (t : ℚ) (i : Nat) (chromosome : List Int) :
    Option (List Int) :=
  if t < mutation_rate then
    (chromosome.get? i).map (fun v => chromosome.set i (if v = 0 then 1 else 0))
  else some chromosome

/-- Return value of EA.run, lines 165-169 of src/ea.py.  When
top_chromosome is set, a fresh Chromosome with recomputed fitness is
returned.  When it is not, the source evaluates
max(chromosomes, key = ...) but has no return statement on that line, so
the function returns Python None: modelled as none here (for a nonempty
final population; run always has one since generation_size = 100). -/
def runReturn (clauses : List (List Int)) (top : Option (List Int))
    (_chromosomes : List Chromosome) : Option Chromosome :=
  match top with
  | some t => (eaFitness clauses t).map (fun f => { solution := t, fitness := f })
  | none => none

/-- EA.goal_function: record the chromosome as top_chromosome when its
fitness equals the clause count; otherwise leave top_chromosome alone. -/
def goalFunction (num_clauses : Nat) (fitnessValue : Nat)
    (chromosome : List Int) (top : Option (List Int)) : Option (List Int) :=
  if fitnessValue = num_clauses then some chromosome else top

/-- Body of the loop in Particle.update_velocity, at one dimension:
w * v_i + c1 * r1 * (best_i - position_i) + c2 * r2 * (global_best_i - position_i).
The lists are traversed in lockstep (the source indexes four equal-length
lists over range(num_literals)); a length mismatch models the IndexError. -/
def updateVelocityGo (w c1 c2 r1 r2 : ℚ) :
    List ℚ → List Int → List Int → List Int → Option (List ℚ)
  | [], [], [], [] => some []
  | vi :: v, bi :: b, pi :: p, gi :: g =>
      (updateVelocityGo w c1 c2 r1 r2 v b p g).map
        (fun rest =>
          (w * vi + c1 * r1 * ((bi : ℚ) - (pi : ℚ)) +
            c2 * r2 * ((gi : ℚ) - (pi : ℚ))) :: rest)
  | _, _, _, _ => none

/-- Particle.update_velocity: r1 and r2 are drawn ONCE, before the loop
over dimensions, so every dimension of this update shares the same pair
(r1, r2) = (draws 0, draws 1). -/
def updateVelocity (draws : Nat → ℚ) (w c1 c2 : ℚ) (velocity : List ℚ)
    (best position global_best : List Int) : Option (List ℚ) :=
  updateVelocityGo w c1 c2 (draws 0) (draws 1) velocity best position global_best

/-- Modelled from the spec (refinement target for the velocity update, not
from the source): the spec says r1, r2 are independent uniform draws
resampled per dimension, so dimension i consumes draws 2i and 2i+1. -/
def updateVelocitySpecResampled (draws : Nat → ℚ) (w c1 c2 : ℚ) (velocity : List ℚ)
    (best position global_best : List Int) : Option (List ℚ) :=
  match velocity, best, position, global_best with
  | [], [], [], [] => some []
  | vi :: v, bi :: b, pi :: p, gi :: g =>
      (updateVelocitySpecResampled (fun k => draws (k + 2)) w c1 c2 v b p g).map
        (fun rest =>
          (w * vi + c1 * draws 0 * ((bi : ℚ) - (pi : ℚ)) +
            c2 * draws 1 * ((gi : ℚ) - (pi : ℚ))) :: rest)
  | _, _, _, _ => none

/-- PSO.update_personal_best on one particle, acting on the pair
(particle.fitness, particle.best) with the current position at hand:
compute p_best_fit = fitness(particle.best); when particle.fitness is
strictly greater, set particle.fitness to p_best_fit and rebind
particle.best to particle.position; otherwise change nothing. -/
def updatePersonalBest (clauses : List WClause) (fitness : Int)
    (best position : List Int) : Option (Int × List Int) :=
  (psoFitness clauses best).map (fun p_best_fit =>
    if p_best_fit < fitness then (p_best_fit, position) else (fitness, best))

/-- PSO.update_clauses_weight: every clause's weight becomes
w + 1 - is_clause_satisfied(global_best, clause), with the Python bool
counting as 0 or 1. -/
def updateClausesWeight (global_best : List Int) :
    List WClause → Option (List WClause)
  | [] => some []
  | c :: cs =>
      (isClauseSatisfied global_best c.clause).bind (fun sat =>
        (updateClausesWeight global_best cs).map
          (fun rest => { c with w := c.w + 1 - (if sat then 1 else 0) } :: rest))

/-- Bit flip used by PSO.local_search:
particle.position[i] = 1 - particle.position[i]. -/
def flipAt (pos : List Int) (i : Nat) : Option (List Int) :=
  (pos.get? i).map (fun v => pos.set i (1 - v))

/-- Body of the for-loop of PSO.local_search over the remaining variable
indices, threading (position, improvement, nbrflip); fit is the fitness
of the enclosing PSO object (psoFitness of its current clauses).  At each
index: compute fit_before, flip bit i, count the flip, compute fit_after;
keep the flip when the gain is nonnegative (adding the gain to
improvement), otherwise flip the bit back. -/
def sweepGo (fit : List Int → Option Int) :
    List Nat → List Int → Int → Nat → Option (List Int × Int × Nat)
  | [], pos, improvement, nbrflip => some (pos, improvement, nbrflip)
  | i :: rest, pos, improvement, nbrflip =>
      (fit pos).bind (fun fit_before =>
        (flipAt pos i).bind (fun pos1 =>
          (fit pos1).bind (fun fit_after =>
            if 0 ≤ fit_after - fit_before then
              sweepGo fit rest pos1 (improvement + (fit_after - fit_before))
                (nbrflip + 1)
            else
              (flipAt pos1 i).bind (fun pos2 =>
                sweepGo fit rest pos2 improvement (nbrflip + 1)))))

/-- While-loop of PSO.local_search: repeat full sweeps over all variable
indices while improvement > 0 and nbrflip < max_flip.  The fuel argument
bounds the number of loop iterations; it only needs to exceed the number
the source performs (each sweep with n greater than 0 increases nbrflip by n, and a
sweep with n = 0 sets improvement to 0), and the top-level wrapper below
passes enough. -/
def lsLoop (fit : List Int → Option Int) (n max_flip : Nat) :
    Nat → List Int → Int → Nat → Option (List Int)
  | 0, _, _, _ => none
  | fuel + 1, pos, improvement, nbrflip =>
      if 0 < improvement ∧ nbrflip < max_flip then
        (sweepGo fit (List.range n) pos 0 nbrflip).bind
          (fun r => lsLoop fit n max_flip fuel r.1 r.2.1 r.2.2)
      else some pos

/-- PSO.local_search over an abstract fitness function: initial
improvement 1 and nbrflip 0, then the while loop. -/
def localSearchGen (fit : List Int → Option Int) (n max_flip : Nat)
    (pos : List Int) : Option (List Int) :=
  lsLoop fit n max_flip (max_flip + 2) pos 1 0

/-- PSO.local_search on a particle position, with the weighted fitness of
the given clause list (self.fitness) and n = num_literals. -/
def localSearch (clauses : List WClause) (n max_flip : Nat)
    (pos : List Int) : Option (List Int) :=
  localSearchGen (psoFitness clauses) n max_flip pos

/-- Particle record of the PSO swarm model.  Python assignment lists live
in a heap of cells; position and best are references (cell indices), as in
the source they are plain bindings that can alias each other and the
global best (Particle.__init__ sets best = position without a copy, and
PSO.__init__ sets global_best = swarm[0].position). -/
structure PParticle where
  posRef : Nat
  bestRef : Nat
  fitness : Int
  deriving Repr, DecidableEq

/-- State of a PSO object: the heap of assignment-list cells, the swarm,
the global best reference with its recorded fitness, the weighted clauses
and num_literals. -/
structure SwarmState where
  heap : List (List Int)
  particles : List PParticle
  global_best : Nat
  global_best_fitness : Int
  clauses : List WClause
  num_literals : Nat
  deriving Repr, DecidableEq

/-- Assignment currently referenced by the global best. -/
def derefGlobalBest (s : SwarmState) : Option (List Int) :=
  s.heap.get? s.global_best

/-- One particle step of PSO.calc_fitness_and_global_best: store the
evaluated fitness in the particle; when it strictly exceeds the global
best fitness, rebind the global best to this particle's position cell. -/
def calcFitnessStep (clauses : List WClause) (heap : List (List Int))
    (p : PParticle) (gb : Nat) (gbf : Int) : Option (PParticle × Nat × Int) :=
  (heap.get? p.posRef).bind (fun pos =>
    (psoFitness clauses pos).map (fun f =>
      if gbf < f then ({ p with fitness := f }, p.posRef, f)
      else ({ p with fitness := f }, gb, gbf)))

/-- Fold of calcFitnessStep over the swarm, in order. -/
def calcFitnessGo (clauses : List WClause) (heap : List (List Int)) :
    List PParticle → Nat → Int → Option (List PParticle × Nat × Int)
  | [], gb, gbf => some ([], gb, gbf)
  | p :: ps, gb, gbf =>
      (calcFitnessStep clauses heap p gb gbf).bind (fun r =>
        (calcFitnessGo clauses heap ps r.2.1 r.2.2).map
          (fun rs => (r.1 :: rs.1, rs.2)))

/-- PSO.calc_fitness_and_global_best on the whole state. -/
def calcFitnessAndGlobalBest (s : SwarmState) : Option SwarmState :=
  (calcFitnessGo s.clauses s.heap s.particles s.global_best s.global_best_fitness).map
    (fun r => { s with particles := r.1, global_best := r.2.1,
                       global_best_fitness := r.2.2 })

/-- PSO.local_search applied to particle i of the state: the particle's
position cell is rewritten in place, so any reference to the same cell
(particle.best, or the global best) observes the change. -/
def localSearchP (s : SwarmState) (i max_flip : Nat) : Option SwarmState :=
  (s.particles.get? i).bind (fun p =>
    (s.heap.get? p.posRef).bind (fun pos =>
      (localSearch s.clauses s.num_literals max_flip pos).map
        (fun pos2 => { s with heap := s.heap.set p.posRef pos2 })))

/-- PSO.update_personal_best applied to particle i of the state. -/
def updatePersonalBestP (s : SwarmState) (i : Nat) : Option SwarmState :=
  (s.particles.get? i).bind (fun p =>
    (s.heap.get? p.bestRef).bind (fun best =>
      (psoFitness s.clauses best).map (fun p_best_fit =>
        if p_best_fit < p.fitness then
          { s with particles :=
              s.particles.set i { p with fitness := p_best_fit, bestRef := p.posRef } }
        else s)))

/-- PSO.update_global_best applied to particle i of the state: evaluate
the fitness of the particle's best; on strict improvement rebind the
global best reference to that cell and record the new fitness. -/
def updateGlobalBestP (s : SwarmState) (i : Nat) : Option SwarmState :=
  (s.particles.get? i).bind (fun p =>
    (s.heap.get? p.bestRef).bind (fun best =>
      (psoFitness s.clauses best).map (fun curr_fitness =>
        if s.global_best_fitness < curr_fitness then
          { s with global_best_fitness := curr_fitness, global_best := p.bestRef }
        else s)))

/-- PSO.update_clauses_weight on the state, reading the assignment the
global best currently references. -/
def updateClausesWeightP (s : SwarmState) : Option SwarmState :=
  (derefGlobalBest s).bind (fun gb =>
    (updateClausesWeight gb s.clauses).map (fun cs => { s with clauses := cs }))

/-- Concrete one-particle state for the aliasing scenario: a single
particle whose position cell 0 holds [0], with best and global best both
referencing that same cell (exactly how PSO.__init__ leaves a fresh
swarm), one clause [1] of weight 1, recorded global best fitness 0. -/
def aliasState : SwarmState :=
  { heap := [[0]], particles := [{ posRef := 0, bestRef := 0, fitness := 0 }],
    global_best := 0, global_best_fitness := 0,
    clauses := [{ clause := [1], w := 1 }], num_literals := 1 }

/-- Concrete one-particle state whose stored best (cell 1, holding [1])
strictly improves on the recorded global best fitness 0. -/
def improveState : SwarmState :=
  { heap := [[0], [1]], particles := [{ posRef := 0, bestRef := 1, fitness := 1 }],
    global_best := 0, global_best_fitness := 0,
    clauses := [{ clause := [1], w := 1 }], num_literals := 1 }

/-- Setting a list entry to the value it already holds is the identity. -/
theorem set_get?_self (l : List Int) (i : Nat) (v : Int) (h : l.get? i = some v) :
    l.set i v = l := by
  induction l generalizing i with
  | nil => simp at h
  | cons x xs ih =>
      cases i with
      | zero =>
          simp only [List.get?] at h
          cases h
          rfl
      | succ n =>
          simp only [List.get?] at h
          simp [List.set, ih n h]

/-- Flipping the same bit twice restores the original position list. -/
theorem flipAt_flipAt (pos pos1 pos2 : List Int) (i : Nat)
    (h1 : flipAt pos i = some pos1) (h2 : flipAt pos1 i = some pos2) :
    pos2 = pos := by
  unfold flipAt at h1 h2
  obtain ⟨v, hv, hset⟩ := Option.map_eq_some'.mp h1
  obtain ⟨v1, hv1, hset1⟩ := Option.map_eq_some'.mp h2
  subst hset
  have hgot : (pos.set i (1 - v)).get? i = some (1 - v) := by
    rw [List.get?_set_eq, hv]
    rfl
  rw [hgot] at hv1
  have hv1eq : 1 - v = v1 := Option.some_inj.mp hv1
  subst hv1eq
  rw [← hset1, List.set_set]
  have h2v : 1 - (1 - v) = v := by ring
  rw [h2v]
  exact set_get?_self pos i v hv

/-- Fitness never drops along one sweep of the local-search for-loop:
every flip is either kept with nonnegative gain or undone exactly. -/
theorem sweepGo_mono (fit : List Int → Option Int) :
    ∀ (idxs : List Nat) (pos : List Int) (imp : Int) (nf : Nat)
      (r : List Int × Int × Nat), sweepGo fit idxs pos imp nf = some r →
      ∀ f0, fit pos = some f0 → ∃ f2, fit r.1 = some f2 ∧ f0 ≤ f2 := by
  intro idxs
  induction idxs with
  | nil =>
      intro pos imp nf r h f0 hf
      unfold sweepGo at h
      cases h
      exact ⟨f0, hf, le_refl f0⟩
  | cons i rest ih =>
      intro pos imp nf r h f0 hf
      unfold sweepGo at h
      rw [hf, Option.some_bind] at h
      cases hflip : flipAt pos i with
      | none => rw [hflip] at h; simp at h
      | some pos1 =>
          rw [hflip, Option.some_bind] at h
          cases hfa : fit pos1 with
          | none => rw [hfa] at h; simp at h
          | some fa =>
              rw [hfa, Option.some_bind] at h
              by_cases hg : (0 : Int) ≤ fa - f0
              · rw [if_pos hg] at h
                obtain ⟨f2, hf2, hle⟩ := ih pos1 (imp + (fa - f0)) (nf + 1) r h fa hfa
                exact ⟨f2, hf2, le_trans (by linarith) hle⟩
              · rw [if_neg hg] at h
                cases hflip2 : flipAt pos1 i with
                | none => rw [hflip2] at h; simp at h
                | some pos2 =>
                    rw [hflip2, Option.some_bind] at h
                    have hback : pos2 = pos := flipAt_flipAt pos pos1 pos2 i hflip hflip2
                    subst hback
                    exact ih pos2 imp (nf + 1) r h f0 hf

/-- Fitness never drops across the local-search while loop. -/
theorem lsLoop_mono (fit : List Int → Option Int) (n max_flip : Nat) :
    ∀ (fuel : Nat) (pos : List Int) (imp : Int) (nf : Nat) (pos2 : List Int),
      lsLoop fit n max_flip fuel pos imp nf = some pos2 →
      ∀ f0, fit pos = some f0 → ∃ f2, fit pos2 = some f2 ∧ f0 ≤ f2 := by
  intro fuel
  induction fuel with
  | zero => intro pos imp nf pos2 h f0 hf; simp [lsLoop] at h
  | succ fuel ih =>
      intro pos imp nf pos2 h f0 hf
      unfold lsLoop at h
      by_cases hc : 0 < imp ∧ nf < max_flip
      · rw [if_pos hc] at h
        cases hs : sweepGo fit (List.range n) pos 0 nf with
        | none => rw [hs] at h; simp at h
        | some r =>
            rw [hs, Option.some_bind] at h
            obtain ⟨f1, hf1, hle1⟩ := sweepGo_mono fit (List.range n) pos 0 nf r hs f0 hf
            obtain ⟨f2, hf2, hle2⟩ := ih r.1 r.2.1 r.2.2 pos2 h f1 hf1
            exact ⟨f2, hf2, le_trans hle1 hle2⟩
      · rw [if_neg hc] at h
        cases h
        exact ⟨f0, hf, le_refl f0⟩

/-- The claim of C8: one full pass of PSO.local_search never leaves the
particle position with a lower weighted fitness than before the pass;
flips are kept only on nonnegative fitness delta and reverted otherwise,
so the fitness is non-decreasing across the whole search. -/
theorem local_search_fitness_monotone (clauses : List WClause) (n max_flip : Nat)
    (pos pos2 : List Int) (f0 : Int) (hf : psoFitness clauses pos = some f0)
    (h : localSearch clauses n max_flip pos = some pos2) :
    ∃ f2, psoFitness clauses pos2 = some f2 ∧ f0 ≤ f2 :=
  lsLoop_mono (psoFitness clauses) n max_flip (max_flip + 2) pos 1 0 pos2 h f0 hf

/-- Concrete instance of C8: over the single unit clause [1] with weight 1
the pass from position [0] reaches [1] and the fitness did not decrease
from its initial value 0. -/
theorem local_search_fitness_monotone_witness :
    ∃ f2, psoFitness [{ clause := [1], w := 1 }] [1] = some f2 ∧ (0 : Int) ≤ f2 :=
  local_search_fitness_monotone [{ clause := [1], w := 1 }] 1 5 [0] [1] 0
    (by decide) (by decide)

/-- The claim of C9: the unweighted score is at most the clause count,
it equals the clause count exactly when every clause is individually
satisfied (being a Nat it is at least 0), and PSO.num_satisfied_clauses
computes the same count as EA.fitness on the underlying clauses. -/
theorem score_in_range_iff_all_satisfied :
    (∀ (clauses : List (List Int)) (val : List Int) (k : Nat),
        eaFitness clauses val = some k →
        k ≤ clauses.length ∧
          (k = clauses.length ↔ ∀ c ∈ clauses, isClauseSatisfied val c = some true)) ∧
      ∀ (wcs : List WClause) (val : List Int),
        numSatisfiedClauses wcs val = eaFitness (wcs.map WClause.clause) val := by
  refine ⟨?_, fun wcs val => rfl⟩
  intro clauses
  induction clauses with
  | nil =>
      intro val k h
      unfold eaFitness at h
      cases h
      simp
  | cons c cs ih =>
      intro val k h
      unfold eaFitness at h
      cases hb : isClauseSatisfied val c with
      | none => rw [hb] at h; simp at h
      | some b =>
          rw [hb, Option.some_bind] at h
          cases hk : eaFitness cs val with
          | none => rw [hk] at h; simp at h
          | some k0 =>
              rw [hk] at h
              simp only [Option.map_some'] at h
              cases h
              obtain ⟨hle, hiff⟩ := ih val k0 hk
              cases b with
              | true =>
                  refine ⟨by simpa using Nat.add_le_add_right hle 1, ?_⟩
                  constructor
                  · intro hk1 c2 hc2
                    rcases List.mem_cons.mp hc2 with hc2 | hc2
                    · rw [hc2]; exact hb
                    · have hk0 : k0 = cs.length := by
                        simp at hk1
                        omega
                      exact (hiff.mp hk0) c2 hc2
                  · intro hall
                    have : k0 = cs.length :=
                      hiff.mpr (fun c2 hc2 => hall c2 (List.mem_cons_of_mem c hc2))
                    simp [this]
              | false =>
                  refine ⟨by simpa using Nat.le_succ_of_le hle, ?_⟩
                  constructor
                  · intro hk1
                    exfalso
                    simp at hk1
                    omega
                  · intro hall
                    have := hall c (List.mem_cons_self c cs)
                    rw [hb] at this
                    simp at this

/-- Concrete instance of C9: over clauses [1], [-1], [2] the assignment
[1, 0] scores 1 of 3, and 1 is not 3 because clause [-1] is unsatisfied. -/
theorem score_in_range_iff_all_satisfied_witness :
    (1 : Nat) ≤ ([[1], [-1], [2]] : List (List Int)).length ∧
      ((1 : Nat) = ([[1], [-1], [2]] : List (List Int)).length ↔
        ∀ c ∈ ([[1], [-1], [2]] : List (List Int)),
          isClauseSatisfied [1, 0] c = some true) :=
  score_in_range_iff_all_satisfied.1 [[1], [-1], [2]] [1, 0] 1 (by decide)

/-- The claim of C10: when the particle fitness strictly exceeds the
fitness of the stored personal best, PSO.update_personal_best overwrites
particle.fitness with the OLD personal best fitness (the strictly smaller
value) and rebinds the personal best to the current position; otherwise it
changes neither field. -/
theorem update_personal_best_behavior (clauses : List WClause) (fit : Int)
    (best position : List Int) (p_best_fit : Int)
    (hb : psoFitness clauses best = some p_best_fit) :
    (p_best_fit < fit →
        updatePersonalBest clauses fit best position = some (p_best_fit, position)) ∧
      (¬ p_best_fit < fit →
        updatePersonalBest clauses fit best position = some (fit, best)) := by
  unfold updatePersonalBest
  rw [hb]
  constructor <;> intro h <;> simp [h]

/-- Concrete instance of C10: over the unit clause [1] with weight 1 and
stored best [0] (fitness 0), a particle with fitness 5 at position [1]
ends with fitness 0 and best [1]; with fitness 0 nothing changes. -/
theorem update_personal_best_behavior_witness :
    updatePersonalBest [{ clause := [1], w := 1 }] 5 [0] [1] = some (0, [1]) ∧
      updatePersonalBest [{ clause := [1], w := 1 }] 0 [0] [1] = some (0, [0]) :=
  ⟨(update_personal_best_behavior [{ clause := [1], w := 1 }] 5 [0] [1] 0
      (by decide)).1 (by decide),
    (update_personal_best_behavior [{ clause := [1], w := 1 }] 0 [0] [1] 0
      (by decide)).2 (by decide)⟩

/-- The claim of C7: PSO.update_clauses_weight leaves every clause in
place, adds exactly 1 to the weight of each clause unsatisfied by the
current global best, leaves the weight of each satisfied clause unchanged,
and therefore never decreases a weight and preserves the weight lower
bound 1. -/
theorem update_clauses_weight_pointwise (global_best : List Int) :
    ∀ (cs cs2 : List WClause), updateClausesWeight global_best cs = some cs2 →
      List.Forall₂ (fun c c2 =>
        c2.clause = c.clause ∧ c.w ≤ c2.w ∧ (1 ≤ c.w → 1 ≤ c2.w) ∧
          ∃ sat, isClauseSatisfied global_best c.clause = some sat ∧
            c2.w = c.w + (if sat then 0 else 1)) cs cs2 := by
  intro cs
  induction cs with
  | nil =>
      intro cs2 h
      unfold updateClausesWeight at h
      cases h
      exact List.Forall₂.nil
  | cons c cs ih =>
      intro cs2 h
      unfold updateClausesWeight at h
      cases hb : isClauseSatisfied global_best c.clause with
      | none => rw [hb] at h; simp at h
      | some sat =>
          rw [hb, Option.some_bind] at h
          cases hr : updateClausesWeight global_best cs with
          | none => rw [hr] at h; simp at h
          | some rest =>
              rw [hr] at h
              simp only [Option.map_some'] at h
              cases h
              refine List.Forall₂.cons ⟨rfl, ?_, ?_, sat, hb, ?_⟩ (ih rest hr)
              · cases sat <;> simp
              · cases sat <;> intro h1 <;> simp <;> omega
              · cases sat <;> simp

/-- Concrete instance of C7: with global best [1], the satisfied clause
[1] keeps weight 1 and the unsatisfied clause [-1] goes from weight 4 to
weight 5. -/
theorem update_clauses_weight_pointwise_witness :
    List.Forall₂ (fun (c c2 : WClause) =>
        c2.clause = c.clause ∧ c.w ≤ c2.w ∧ (1 ≤ c.w → 1 ≤ c2.w) ∧
          ∃ sat, isClauseSatisfied [1] c.clause = some sat ∧
            c2.w = c.w + (if sat then 0 else 1))
      [{ clause := [1], w := 1 }, { clause := [-1], w := 4 }]
      [{ clause := [1], w := 1 }, { clause := [-1], w := 5 }] :=
  update_clauses_weight_pointwise [1]
    [{ clause := [1], w := 1 }, { clause := [-1], w := 4 }]
    [{ clause := [1], w := 1 }, { clause := [-1], w := 5 }] (by decide)

/-- Resolving a literal whose magnitude exceeds the assignment length is
an index error in both branches of is_clause_satisfied. -/
theorem litVal_none_of_oob (val : List Int) (l : Int) (h : val.length < l.natAbs) :
    litVal val l = none := by
  unfold litVal pyGet
  by_cases hneg : l < 0
  · rw [if_pos hneg]
    have h0 : (0 : Int) ≤ -l - 1 := by omega
    rw [if_pos h0]
    have ht : (-l - 1).toNat = l.natAbs - 1 := by omega
    rw [ht, List.get?_eq_none.mpr (by omega)]
    rfl
  · rw [if_neg hneg]
    have h0 : (0 : Int) ≤ l - 1 := by omega
    rw [if_pos h0]
    have ht : (l - 1).toNat = l.natAbs - 1 := by omega
    rw [ht]
    exact List.get?_eq_none.mpr (by omega)

/-- The claim of C3 fails on the code: the clause [0] contains the
literal 0, for which the claim demands a fail-fast contract-violation
error, yet under the assignment [1] evaluation silently resolves Python
index -1 — the last variable — and returns a computed truth value. -/
theorem zero_literal_silently_read : isClauseSatisfied [1] [0] = some true := by
  decide

/-- The amended claim of C3: the evaluation scans literals left to right
and stops at the first satisfying one; if, before any satisfying literal,
it reaches a literal whose magnitude exceeds literalCount (the assignment
length), it fails fast with an index error; a literal equal to zero is
never such an error — it is silently resolved at Python index -1, i.e. as
the last variable of the assignment (none only for an empty assignment). -/
theorem clause_eval_fails_only_at_reached_oob_literal :
    (∀ (val pre : List Int) (l : Int) (post : List Int),
        (∀ l2 ∈ pre, ∃ v, litVal val l2 = some v ∧ v ≠ 1) →
        val.length < l.natAbs →
        isClauseSatisfied val (pre ++ l :: post) = none) ∧
      ∀ val : List Int, litVal val 0 = val.getLast? := by
  constructor
  · intro val pre
    induction pre with
    | nil =>
        intro l post _ hoob
        unfold isClauseSatisfied
        rw [List.nil_append]
        show (litVal val l).bind _ = none
        rw [litVal_none_of_oob val l hoob]
        rfl
    | cons p pre ih =>
        intro l post hpre hoob
        obtain ⟨v, hv, hne⟩ := hpre p (List.mem_cons_self p pre)
        have hrest := ih l post
          (fun l2 hl2 => hpre l2 (List.mem_cons_of_mem p hl2)) hoob
        unfold isClauseSatisfied
        rw [List.cons_append]
        show (litVal val p).bind _ = none
        rw [hv, Option.some_bind, if_neg hne]
        exact hrest
  · intro val
    unfold litVal pyGet
    rw [if_neg (by omega : ¬ (0 : Int) < 0)]
    rw [if_neg (by omega : ¬ (0 : Int) ≤ 0 - 1)]
    by_cases hlen : val.length = 0
    · rw [if_pos (by omega)]
      rw [List.getLast?_eq_get?, List.get?_eq_none.mpr (by omega)]
    · rw [if_neg (by omega)]
      have ht : ((val.length : Int) + (0 - 1)).toNat = val.length - 1 := by omega
      rw [ht, List.getLast?_eq_get?]

/-- Concrete instance of the amended C3: under assignment [1], the clause
[-1, 2] reaches the out-of-range literal 2 (the in-range literal -1
resolves to 0 first) and evaluation errors, and the zero literal under
assignment [1, 0] silently reads the last variable, 0. -/
theorem clause_eval_fails_only_at_reached_oob_literal_witness :
    isClauseSatisfied [1] ([-1] ++ 2 :: []) = none ∧ litVal [1, 0] 0 = some 0 := by
  constructor
  · exact clause_eval_fails_only_at_reached_oob_literal.1 [1] [-1] 2 []
      (by decide) (by decide)
  · rw [clause_eval_fails_only_at_reached_oob_literal.2 [1, 0]]
    rfl

/-- The claim of C5 fails on the code: r1 and r2 are drawn before the
loop over dimensions, not per dimension.  With draws 1, 0, 0, ... (so a
per-dimension resample would use the pair (1, 0) at dimension 0 and
(0, 0) at dimension 1), w = 0, c1 = 1, c2 = 0, zero velocity, best
[1, 1], position and global best [0, 0]: the code yields [1, 1] — both
dimensions share r1 = 1 — while per-dimension resampling as the claim
states yields [1, 0]. -/
theorem velocity_draws_shared_counterexample :
    updateVelocity (fun k => if k = 0 then 1 else 0) 0 1 0 [0, 0] [1, 1] [0, 0]
        [0, 0] = some [1, 1] ∧
      updateVelocitySpecResampled (fun k => if k = 0 then 1 else 0) 0 1 0 [0, 0]
        [1, 1] [0, 0] [0, 0] = some [1, 0] ∧
      ([1, 1] : List ℚ) ≠ [1, 0] := by
  refine ⟨?_, ?_, by simp⟩
  · simp [updateVelocity, updateVelocityGo]
  · simp [updateVelocitySpecResampled]

/-- Each component of the velocity update uses the same fixed pair
(r1, r2) handed to the loop. -/
theorem updateVelocityGo_get (w c1 c2 r1 r2 : ℚ) :
    ∀ (v : List ℚ) (b p g : List Int) (result : List ℚ),
      updateVelocityGo w c1 c2 r1 r2 v b p g = some result →
      ∀ (i : Nat) (vi : ℚ) (bi pi gi : Int),
        v.get? i = some vi → b.get? i = some bi → p.get? i = some pi →
        g.get? i = some gi →
        result.get? i =
          some (w * vi + c1 * r1 * ((bi : ℚ) - (pi : ℚ)) +
            c2 * r2 * ((gi : ℚ) - (pi : ℚ))) := by
  intro v
  induction v with
  | nil =>
      intro b p g result h i vi bi pi gi hv hb hp hg
      simp at hv
  | cons vh vt ih =>
      intro b p g result h i vi bi pi gi hv hb hp hg
      cases b with
      | nil => simp [updateVelocityGo] at h
      | cons bh bt =>
          cases p with
          | nil => simp [updateVelocityGo] at h
          | cons ph pt =>
              cases g with
              | nil => simp [updateVelocityGo] at h
              | cons gh gt =>
                  unfold updateVelocityGo at h
                  obtain ⟨rest, hrest, hres⟩ := Option.map_eq_some'.mp h
                  subst hres
                  cases i with
                  | zero =>
                      simp only [List.get?] at hv hb hp hg ⊢
                      cases hv
                      cases hb
                      cases hp
                      cases hg
                      rfl
                  | succ n =>
                      simp only [List.get?] at hv hb hp hg ⊢
                      exact ih bt pt gt rest hrest n vi bi pi gi hv hb hp hg

/-- The amended claim of C5: in every PSO velocity update the pair
(r1, r2) is drawn once per particle per update — before the per-dimension
loop — and that same pair is shared by every dimension: component i of
the new velocity is w·v_i + c1·(draws 0)·(best_i − position_i) +
c2·(draws 1)·(global_best_i − position_i). -/
theorem update_velocity_shares_one_draw_pair (draws : Nat → ℚ) (w c1 c2 : ℚ)
    (velocity : List ℚ) (best position global_best : List Int) (result : List ℚ)
    (h : updateVelocity draws w c1 c2 velocity best position global_best = some result)
    (i : Nat) (vi : ℚ) (bi pi gi : Int) (hv : velocity.get? i = some vi)
    (hb : best.get? i = some bi) (hp : position.get? i = some pi)
    (hg : global_best.get? i = some gi) :
    result.get? i = some (w * vi + c1 * draws 0 * ((bi : ℚ) - (pi : ℚ)) +
      c2 * draws 1 * ((gi : ℚ) - (pi : ℚ))) :=
  updateVelocityGo_get w c1 c2 (draws 0) (draws 1) velocity best position
    global_best result h i vi bi pi gi hv hb hp hg

/-- Concrete instance of the amended C5: dimension 1 of the update from
the counterexample uses r1 = draws 0 = 1, not its own fresh draw. -/
theorem update_velocity_shares_one_draw_pair_witness :
    ([1, 1] : List ℚ).get? 1 =
      some (0 * (0 : ℚ) +
        1 * (if (0 : Nat) = 0 then (1 : ℚ) else 0) * (((1 : Int) : ℚ) - ((0 : Int) : ℚ)) +
        0 * (if (1 : Nat) = 0 then (1 : ℚ) else 0) * (((0 : Int) : ℚ) - ((0 : Int) : ℚ))) :=
  update_velocity_shares_one_draw_pair (fun k => if k = 0 then 1 else 0) 0 1 0
    [0, 0] [1, 1] [0, 0] [0, 0] [1, 1] (by simp [updateVelocity, updateVelocityGo])
    1 0 1 0 0 (by simp) (by simp) (by simp) (by simp)

/-- The claim of C6 fails on the code: with the global best aliasing the
single particle's position cell (exactly how PSO.__init__ and
calc_fitness_and_global_best leave it), local_search rewrites that cell
from [0] to [1], so the global-best assignment is altered by an operation
other than the monotonic max replacement — the global best reference and
recorded fitness are untouched while the assignment it denotes changes. -/
theorem global_best_assignment_mutated_by_local_search :
    derefGlobalBest aliasState = some [0] ∧
      (localSearchP aliasState 0 5).map derefGlobalBest = some (some [1]) ∧
      (localSearchP aliasState 0 5).map
          (fun s => (s.global_best, s.global_best_fitness)) =
        some (aliasState.global_best, aliasState.global_best_fitness) := by
  exact ⟨by decide, by decide, by decide⟩

/-- Folding calc_fitness_and_global_best over the swarm never decreases
the recorded global best fitness, and rebinds the global best reference
only together with a strict fitness increase. -/
theorem calcFitnessGo_mono (clauses : List WClause) (heap : List (List Int)) :
    ∀ (ps : List PParticle) (gb : Nat) (gbf : Int)
      (r : List PParticle × Nat × Int),
      calcFitnessGo clauses heap ps gb gbf = some r →
      gbf ≤ r.2.2 ∧ (r.2.1 ≠ gb → gbf < r.2.2) := by
  intro ps
  induction ps with
  | nil =>
      intro gb gbf r h
      unfold calcFitnessGo at h
      cases h
      exact ⟨le_refl gbf, fun hne => absurd rfl hne⟩
  | cons p ps ih =>
      intro gb gbf r h
      unfold calcFitnessGo at h
      cases hs : calcFitnessStep clauses heap p gb gbf with
      | none => rw [hs] at h; simp at h
      | some r1 =>
          rw [hs, Option.some_bind] at h
          obtain ⟨rs, hrs, hr⟩ := Option.map_eq_some'.mp h
          subst hr
          unfold calcFitnessStep at hs
          obtain ⟨pos, hpos, hs2⟩ := Option.bind_eq_some.mp hs
          obtain ⟨f, hf, hr1⟩ := Option.map_eq_some'.mp hs2
          have hr12 : r1.2 = if gbf < f then (p.posRef, f) else (gb, gbf) := by
            rw [← hr1]
            by_cases hgf : gbf < f <;> simp [hgf]
          rw [hr12] at hrs
          by_cases hgf : gbf < f
          · rw [if_pos hgf] at hrs
            obtain ⟨hle, _⟩ := ih p.posRef f rs hrs
            exact ⟨le_of_lt (lt_of_lt_of_le hgf hle),
              fun _ => lt_of_lt_of_le hgf hle⟩
          · rw [if_neg hgf] at hrs
            exact ih gb gbf rs hrs

/-- The amended claim of C6: the recorded global-best fitness never
decreases — calc_fitness_and_global_best and update_global_best change
the record only by monotonic max and rebind the reference only on a
strict fitness increase, and update_personal_best, local_search and
update_clauses_weight leave both record fields untouched.  (What the
original claim misses, shown by the counterexample above, is that
local_search can still mutate the referenced assignment in place when the
global best aliases a particle position.) -/
theorem global_best_record_monotone :
    ∀ (s s2 : SwarmState) (i max_flip : Nat),
      (calcFitnessAndGlobalBest s = some s2 →
        s.global_best_fitness ≤ s2.global_best_fitness ∧
          (s2.global_best ≠ s.global_best →
            s.global_best_fitness < s2.global_best_fitness)) ∧
      (updateGlobalBestP s i = some s2 →
        s.global_best_fitness ≤ s2.global_best_fitness ∧
          (s2.global_best ≠ s.global_best →
            s.global_best_fitness < s2.global_best_fitness)) ∧
      (updatePersonalBestP s i = some s2 →
        s2.global_best = s.global_best ∧
          s2.global_best_fitness = s.global_best_fitness) ∧
      (localSearchP s i max_flip = some s2 →
        s2.global_best = s.global_best ∧
          s2.global_best_fitness = s.global_best_fitness) ∧
      (updateClausesWeightP s = some s2 →
        s2.global_best = s.global_best ∧
          s2.global_best_fitness = s.global_best_fitness) := by
  intro s s2 i max_flip
  refine ⟨?_, ?_, ?_, ?_, ?_⟩
  · intro h
    unfold calcFitnessAndGlobalBest at h
    obtain ⟨r, hr, hs2⟩ := Option.map_eq_some'.mp h
    have := calcFitnessGo_mono s.clauses s.heap s.particles s.global_best
      s.global_best_fitness r hr
    rw [← hs2]
    exact this
  · intro h
    unfold updateGlobalBestP at h
    obtain ⟨p, hp, h2⟩ := Option.bind_eq_some.mp h
    obtain ⟨best, hbest, h3⟩ := Option.bind_eq_some.mp h2
    obtain ⟨cf, hcf, hs2⟩ := Option.map_eq_some'.mp h3
    rw [← hs2]
    by_cases hgf : s.global_best_fitness < cf
    · rw [if_pos hgf]
      exact ⟨le_of_lt hgf, fun _ => hgf⟩
    · rw [if_neg hgf]
      exact ⟨le_refl _, fun hne => absurd rfl hne⟩
  · intro h
    unfold updatePersonalBestP at h
    obtain ⟨p, hp, h2⟩ := Option.bind_eq_some.mp h
    obtain ⟨best, hbest, h3⟩ := Option.bind_eq_some.mp h2
    obtain ⟨pf, hpf, hs2⟩ := Option.map_eq_some'.mp h3
    rw [← hs2]
    by_cases hlt : pf < p.fitness <;> simp [hlt]
  · intro h
    unfold localSearchP at h
    obtain ⟨p, hp, h2⟩ := Option.bind_eq_some.mp h
    obtain ⟨pos, hpos, h3⟩ := Option.bind_eq_some.mp h2
    obtain ⟨pos2, hpos2, hs2⟩ := Option.map_eq_some'.mp h3
    rw [← hs2]
    exact ⟨rfl, rfl⟩
  · intro h
    unfold updateClausesWeightP at h
    obtain ⟨gb, hgb, h2⟩ := Option.bind_eq_some.mp h
    obtain ⟨cs, hcs, hs2⟩ := Option.map_eq_some'.mp h2
    rw [← hs2]
    exact ⟨rfl, rfl⟩

/-- Concrete instances of the amended C6, one per operation:
calc_fitness_and_global_best on the alias state (no improvement, record
unchanged), update_global_best on a state whose particle best strictly
improves (record rises from 0 to 1, reference rebinds from 0 to 1), and
the three frame facts on the alias state. -/
theorem global_best_record_monotone_witness :
    (aliasState.global_best_fitness ≤ aliasState.global_best_fitness ∧
        (aliasState.global_best ≠ aliasState.global_best →
          aliasState.global_best_fitness < aliasState.global_best_fitness)) ∧
      (improveState.global_best_fitness ≤
          ({ improveState with global_best := 1, global_best_fitness := 1 } :
            SwarmState).global_best_fitness ∧
        (({ improveState with global_best := 1, global_best_fitness := 1 } :
              SwarmState).global_best ≠ improveState.global_best →
          improveState.global_best_fitness <
            ({ improveState with global_best := 1, global_best_fitness := 1 } :
              SwarmState).global_best_fitness)) ∧
      (aliasState.global_best = aliasState.global_best ∧
        aliasState.global_best_fitness = aliasState.global_best_fitness) ∧
      (({ aliasState with heap := [[1]] } : SwarmState).global_best =
          aliasState.global_best ∧
        ({ aliasState with heap := [[1]] } : SwarmState).global_best_fitness =
          aliasState.global_best_fitness) ∧
      (({ aliasState with clauses := [{ clause := [1], w := 2 }] } :
            SwarmState).global_best = aliasState.global_best ∧
        ({ aliasState with clauses := [{ clause := [1], w := 2 }] } :
            SwarmState).global_best_fitness = aliasState.global_best_fitness) :=
  ⟨(global_best_record_monotone aliasState aliasState 0 5).1 (by decide),
    (global_best_record_monotone improveState
        { improveState with global_best := 1, global_best_fitness := 1 } 0 5).2.1
      (by decide),
    (global_best_record_monotone aliasState aliasState 0 5).2.2.1 (by decide),
    (global_best_record_monotone aliasState { aliasState with heap := [[1]] }
        0 5).2.2.2.1 (by decide),
    (global_best_record_monotone aliasState
        { aliasState with clauses := [{ clause := [1], w := 2 }] } 0 5).2.2.2.2
      (by decide)⟩

/-- The claim of C1: EA.run falls off the end of the function when no
optimal assignment was observed — the final line evaluates the maximum of
the last population but does not return it, so run yields Python None.
Here the final population is the single chromosome ([0], fitness 1) over
the unsatisfiable clause set [[1], [-1]], and runReturn is none. -/
theorem run_returns_none_when_no_optimum :
    runReturn [[1], [-1]] none [{ solution := [0], fitness := 1 }] = none ∧
      ([{ solution := [0], fitness := 1 }] : List Chromosome) ≠ [] := by
  exact ⟨rfl, by decide⟩

/-- The claim of C2 fails on the code: because ab and ba alias the parent
lists, the second child always ends up equal to parent B.  With parents
a = [0], b = [1] and a draw 7/10 which is not below crossover_p = 1/2, the
spec-claimed complementary children are ([1], [0]), but the code produces
([1], [1]). -/
theorem crossover_not_complementary :
    crossover (mkRat 1 2) (fun _ => mkRat 7 10) [0] [1] = some ([1], [1]) ∧
      (([1], [1]) : List Int × List Int) ≠ ([1], [0]) := by
  exact ⟨by decide, by decide⟩

/-- The claim of C4 fails on the code: EA.crossover writes through ab,
which is the very list object parents[0].solution, so the parent solution
[0] has contents [1] after the call — it is mutated in place, not left
unchanged. -/
theorem crossover_mutates_parent_in_place :
    crossover (mkRat 1 2) (fun _ => mkRat 7 10) [0] [1] = some ([1], [1]) ∧
      ([1] : List Int) ≠ [0] := by
  exact ⟨by decide, by decide⟩

end MaxKSat
